import Mathlib

/-!
# backlight: brightness calculator, selector, discovery and option validation

A shallow embedding of `backlight.go`.

Conventions of the embedding.
* `float64` values are exact rationals (`ℚ`): the arithmetic of the calculator is taken
  exactly.  The constant `0.5` is the rational `1/2`.
* `uint` and `int` are `Nat` and `Int`.  The only integer conversion on a returned value,
  `uint(Round(bl))`, is applied to a value between `0` and `bl_max`, so it never wraps.
* A Go conversion from floating point to an integer type discards the fraction
  (truncation toward zero): `truncate`.  For a value outside the range of the target type Go
  leaves the result to the implementation; the embedding keeps the exact truncation.
* A function that can end the process (`os.Exit`, `panic`) returns an `Outcome`.
-/

namespace Backlight

/-! ## Process outcomes -/

/-- What the program prints right before `os.Exit`. -/
inductive Msg where
  /-- Output of `flag.PrintDefaults()`. -/
  | usage
  /-- Text "Illegal control id (must be positive)". -/
  | illegalId
  /-- Text "Brightness control not specified.  Please use -i or -n". -/
  | notSpecified
  /-- Text "Can't specify backlight control by name and id at the same time". -/
  | nameAndId
  /-- Text "Brightness control %v was not found", with the requested id. -/
  | idNotFound (id : Int)
  /-- Text "Brightness control named %v not found (try -l)", with the requested name. -/
  | nameNotFound (name : String)
  deriving DecidableEq, Repr

/-- Reasons of a `panic`. -/
inductive Fault where
  /-- Call `panic(err)` after a failed library call. -/
  | err
  /-- Run-time panic of a slice index expression: index out of range. -/
  | indexOutOfRange
  /-- Call `panic("Never reached")`. -/
  | neverReached
  /-- Call `panic("Invalid state")`. -/
  | invalidState
  deriving DecidableEq, Repr

/-- Result of running a function of the program: it returns a value, or the process ends
with `os.Exit(code)` after printing a message, or it panics. -/
inductive Outcome (α : Type) where
  | ret (a : α)
  | exit (code : Nat) (msg : Msg)
  | panic (why : Fault)
  deriving DecidableEq, Repr

/-! ## Numeric conversions -/

/-- Go conversion `int(f)` / `uint(f)` of a floating-point value: the fraction is discarded
(truncation toward zero). -/
def truncate (f : ℚ) : ℤ :=
  if 0 ≤ f then ⌊f⌋ else ⌈f⌉

/-- Conversion `uint(f)` of a floating-point `f`. -/
def uintOfFloat (f : ℚ) : Nat :=
  (truncate f).toNat

/-- Conversion `uint(i)` of an `int` `i`. -/
def uintOfInt (i : ℤ) : Nat :=
  i.toNat

/-! ## The brightness calculator -/

/-- Function `Round` (backlight.go, lines 252-258):
```
if f<0 { return -Round(-f) } else { return int(f+0.5) }
``` -/
def Round (f : ℚ) : ℤ :=
  if f < 0 then
    - Round (-f)
  else
    truncate (f + 1/2)
termination_by (if f < 0 then 1 else 0 : Nat)
decreasing_by
  all_goals simp_wf
  rename_i h
  have h2 : ¬ (0 < f) := not_lt.mpr (le_of_lt h)
  simp [h, h2]

/-- Function `CalcBacklight` (backlight.go, lines 260-284). -/
def CalcBacklight (bl_max bl_min bl_cur : Nat) (val : ℚ) (is_rel is_perc : Bool) :
    Outcome Nat :=
  let bl : Outcome ℚ :=
    if is_rel && is_perc then
      .ret ((bl_cur : ℚ) + (bl_max : ℚ) * val / 100)
    else if is_rel && !is_perc then
      .ret ((bl_cur : ℚ) + val)
    else if !is_rel && is_perc then
      .ret (val / 100 * (bl_max : ℚ))
    else if !is_rel && !is_perc then
      .ret val
    else
      .panic .neverReached
  match bl with
  | .ret bl =>
    -- sanity check
    if bl < 0 ∨ uintOfFloat bl < bl_min then
      .ret bl_min
    else if bl > (bl_max : ℚ) then
      .ret bl_max
    else
      .ret (uintOfInt (Round bl))
  | .exit c m => .exit c m
  | .panic w => .panic w

/-! ## Reference definitions for the calculator -/

/-- Target value of an adjustment, as in the table of the four modes. -/
def specValue (max current : Nat) (value : ℚ) (is_rel is_perc : Bool) : ℚ :=
  match is_rel, is_perc with
  | true, true => (current : ℚ) + (max : ℚ) * value / 100
  | true, false => (current : ℚ) + value
  | false, true => value / 100 * (max : ℚ)
  | false, false => value

/-- Rounding to the nearest integer, halves away from zero. -/
def roundHalfAway (v : ℚ) : ℤ :=
  if 0 ≤ v then ⌊v + 1/2⌋ else ⌈v - 1/2⌉

/-- Clamping of a target value: below zero or below `min` gives `min`, above `max` gives
`max`, and only a value in range is rounded. -/
def specClamp (max min : Nat) (v : ℚ) : Nat :=
  if v < 0 ∨ v < (min : ℚ) then min
  else if v > (max : ℚ) then max
  else (roundHalfAway v).toNat

/-- Clamp-then-round reference of the calculator. -/
def specCalc (max min current : Nat) (value : ℚ) (is_rel is_perc : Bool) : Nat :=
  specClamp max min (specValue max current value is_rel is_perc)

/-! ## Path functions of the standard library -/

/-- Components of a path: the pieces between the separators `/`. -/
def splitSlash : List Char → List (List Char)
  | [] => [[]]
  | c :: cs =>
    if c = '/' then [] :: splitSlash cs
    else
      match splitSlash cs with
      | [] => [[c]]
      | x :: xs => (c :: x) :: xs

/-- One step of `filepath.Clean` over the components seen so far (kept in reverse order):
empty and `.` components are dropped, `..` removes the component before it when there is one
to remove, is dropped at the root, and is kept otherwise. -/
def cleanStep (rooted : Bool) (stack : List (List Char)) (e : List Char) : List (List Char) :=
  if e = [] ∨ e = ['.'] then stack
  else if e = ['.', '.'] then
    match stack with
    | [] => if rooted then [] else [e]
    | top :: rest => if top = ['.', '.'] then e :: stack else rest
  else e :: stack

/-- Function `filepath.Clean` of the standard library (Unix). -/
def Clean (path : String) : String :=
  if path = "" then "."
  else
    let rooted : Bool := path.data.head? = some '/'
    let comps := ((splitSlash path.data).foldl (cleanStep rooted) []).reverse
    let out := (if rooted then ['/'] else []) ++ List.intercalate ['/'] comps
    if out = [] then "." else String.mk out

/-- Function `filepath.Join` of the standard library (Unix) for two elements: empty elements
in front are ignored, the rest is joined with `/` and cleaned. -/
def Join (a b : String) : String :=
  if a ≠ "" then Clean (a ++ "/" ++ b)
  else if b ≠ "" then Clean b
  else ""

/-- Function `filepath.Base` of the standard library (Unix): the last element of the path,
after removing trailing slashes; `.` for the empty path and `/` for a path of slashes
only. -/
def Base (path : String) : String :=
  if path = "" then "."
  else
    let stripped := (path.data.reverse.dropWhile (fun c => c = '/')).reverse
    let last := (stripped.reverse.takeWhile (fun c => c ≠ '/')).reverse
    if last = [] then "/" else String.mk last

/-- Call `strings.TrimSuffix(str, "%")`. -/
def TrimSuffixPercent (str : String) : String :=
  if str.data.getLast? = some '%' then String.mk str.data.dropLast else str

/-! ## Options -/

/-- Record `Options` (backlight.go, lines 21-30).  The field `val` is `none` for the
not-a-number value that stands for "no adjustment". -/
structure Options where
  help : Bool
  list : Bool
  id : Int
  name : String
  val : Option ℚ
  min : Nat
  perc : Bool
  rel : Bool
  deriving DecidableEq

/-- Flags as they stand on the command line: a value flag is present with a value, or
absent. -/
structure Args where
  h : Bool
  l : Bool
  i : Option Int
  n : Option String
  s : Option String
  m : Option Int
  deriving DecidableEq

/-- Function `ParseOptions` (backlight.go, lines 32-108).  The flag variables take the
declared defaults (`-1` for `-i`, the empty string for `-n` and `-s`, `0` for `-m`) when the
flag is absent.  `ParseFloat` is `strconv.ParseFloat`, `none` being its error. -/
def ParseOptions (ParseFloat : String → Option ℚ) (args : Args) : Outcome Options :=
  let op_help : Bool := args.h
  let op_list : Bool := args.l
  let op_id : Int := args.i.getD (-1)
  let op_name : String := args.n.getD ""
  let op_val : String := args.s.getD ""
  let op_min : Int := args.m.getD 0
  -- store the results in a nice struct
  let options : Options :=
    { help := op_help, list := op_list, id := op_id, name := op_name,
      val := none, min := 0, perc := false, rel := false }
  -- now for the manual parsing
  let parsed : Outcome Options :=
    if op_val.length > 0 then
      let rel : Bool :=
        if op_val.data.head? = some '+' ∨ op_val.data.head? = some '-' then true
        else options.rel
      let perc : Bool :=
        if op_val.data.getLast? = some '%' then true else options.perc
      match ParseFloat (TrimSuffixPercent op_val) with
      | none => .panic .err
      | some val => .ret { options with rel := rel, perc := perc, val := some val }
    else .ret options
  match parsed with
  | .ret options =>
    let options : Options :=
      if op_min > 0 then { options with min := op_min.toNat } else options
    -- some logic
    if op_help then .exit 0 .usage
    else
      let options : Options :=
        if op_val.length = 0 then { options with list := true } else options
      if options.id ≠ -1 ∧ options.id < 0 then
        .exit 1 .illegalId
      else if op_val.length > 0 ∧ ¬ (options.id ≠ -1 ∨ options.name.length > 0) then
        .exit 1 .notSpecified
      else if options.id ≠ -1 ∧ options.name.length > 0 then
        .exit 1 .nameAndId
      else
        .ret options
  | .exit c m => .exit c m
  | .panic w => .panic w

/-- An index is set: `-i` is given with a value other than the unset marker `-1`. -/
def Args.indexSet (args : Args) : Prop :=
  ∃ v ∈ args.i, v ≠ -1

instance (args : Args) : Decidable args.indexSet := by
  unfold Args.indexSet
  infer_instance

/-- A name is set: `-n` is given with a non-empty name. -/
def Args.nameSet (args : Args) : Prop :=
  ∃ name ∈ args.n, name ≠ ""

instance (args : Args) : Decidable args.nameSet := by
  unfold Args.nameSet
  infer_instance

/-- An adjustment is requested: `-s` is given with a non-empty value. -/
def Args.adjustment (args : Args) : Prop :=
  ∃ str ∈ args.s, str ≠ ""

instance (args : Args) : Decidable args.adjustment := by
  unfold Args.adjustment
  infer_instance

/-- The `-i` value is negative and not the unset marker `-1`. -/
def Args.indexIllegal (args : Args) : Prop :=
  ∃ v ∈ args.i, v < 0 ∧ v ≠ -1

instance (args : Args) : Decidable args.indexIllegal := by
  unfold Args.indexIllegal
  infer_instance

/-- The `-s` value, when an adjustment is requested, is accepted by `ParseFloat` once a
trailing `%` is removed. -/
def Args.parseable (ParseFloat : String → Option ℚ) (args : Args) : Prop :=
  ∀ str ∈ args.s, str ≠ "" → (ParseFloat (TrimSuffixPercent str)).isSome

instance (ParseFloat : String → Option ℚ) (args : Args) :
    Decidable (args.parseable ParseFloat) := by
  unfold Args.parseable
  infer_instance

/-! ## Selector -/

/-- Index expression `a[i]` of Go on a slice, with an `int` index: the element at position
`i`, and a run-time panic when `i` is out of range. -/
def sliceIndex (a : List String) (i : Int) : Outcome String :=
  if 0 ≤ i then
    match a[i.toNat]? with
    | some x => .ret x
    | none => .panic .indexOutOfRange
  else .panic .indexOutOfRange

/-- Loop of `SelectDirs` over the discovered controls when selecting by name
(backlight.go, lines 237-243). -/
def selectByName (name : String) : List String → Outcome String
  | [] => .exit 2 (.nameNotFound name)
  | d :: ds => if Base d = name then .ret d else selectByName name ds

/-- Function `SelectDirs` (backlight.go, lines 225-250). -/
def SelectDirs (all_dirs : List String) (options : Options) : Outcome String :=
  if options.id ≠ -1 then
    if options.id < (all_dirs.length : Int) then
      sliceIndex all_dirs options.id
    else
      .exit 2 (.idNotFound options.id)
  else if options.name.length > 0 then
    selectByName options.name all_dirs
  else
    .ret ""

/-! ## Discovery -/

/-- Result of `os.Stat`: file information (only `IsDir` is used), the error for which
`os.IsNotExist` holds, or another error. -/
inductive StatResult where
  | info (isDir : Bool)
  | errNotExist
  | errOther
  deriving DecidableEq, Repr

/-- The operating-system calls that discovery uses.  `ReadDir` is `ioutil.ReadDir`, giving
the names of the entries in the order of the returned slice, `none` being its error. -/
structure OS where
  ReadDir : String → Option (List String)
  Stat : String → StatResult

/-- Function `FileExists` (backlight.go, lines 110-117). -/
def FileExists (os : OS) (name : String) : Bool :=
  match os.Stat name with
  | .errNotExist => false
  | _ => true

/-- Function `FileIsDir` (backlight.go, lines 119-125). -/
def FileIsDir (os : OS) (name : String) : Bool :=
  match os.Stat name with
  | .info isDir => isDir
  | _ => false

/-- Inner loop of `ScanDir` over the required file names (lines 141-149): `false` is the
`continue OUTER`. -/
def hasFiles (os : OS) (d : String) : List String → Bool
  | [] => true
  | f :: fs =>
    let file := Join d f
    if !FileExists os file then false else hasFiles os d fs

/-- Outer loop of `ScanDir` over the entries (lines 134-152), `dirs` being the slice built
so far. -/
def scanLoop (os : OS) (basedir : String) : List String → List String → List String
  | [], dirs => dirs
  | e :: es, dirs =>
    let d := Join basedir e
    if !FileIsDir os d then scanLoop os basedir es dirs
    else if !hasFiles os d ["brightness", "max_brightness"] then scanLoop os basedir es dirs
    else scanLoop os basedir es (dirs ++ [d])

/-- Function `ScanDir` (backlight.go, lines 127-155). -/
def ScanDir (os : OS) (basedir : String) : Outcome (List String) :=
  match os.ReadDir basedir with
  | none => .panic .err
  | some entries => .ret (scanLoop os basedir entries [])

/-- Loop of `ScanDirs` (lines 159-162), `result` being the slice built so far. -/
def scanDirsLoop (os : OS) : List String → List String → Outcome (List String)
  | [], result => .ret result
  | d :: ds, result =>
    match ScanDir os d with
    | .ret thisresult => scanDirsLoop os ds (result ++ thisresult)
    | .exit c m => .exit c m
    | .panic w => .panic w

/-- Function `ScanDirs` (backlight.go, lines 157-164). -/
def ScanDirs (os : OS) (dirs : List String) : Outcome (List String) :=
  scanDirsLoop os dirs []

/-- Kind of a node of the file system. -/
inductive Kind where
  | file
  | dir
  deriving DecidableEq, Repr

/-- An explicit file system: which paths exist and of what kind, and for the listable
directories the names of their entries in enumeration order. -/
structure FileSystem where
  kind : String → Option Kind
  entries : String → Option (List String)

/-- The operating-system calls on an explicit file system: `os.Stat` fails exactly on the
paths that do not exist. -/
def FileSystem.toOS (fs : FileSystem) : OS where
  ReadDir := fs.entries
  Stat := fun p =>
    match fs.kind p with
    | some .dir => .info true
    | some .file => .info false
    | none => .errNotExist

/-- A control directory: a directory that has an entry named `brightness` and an entry
named `max_brightness`. -/
def isControl (fs : FileSystem) (d : String) : Bool :=
  fs.kind d = some .dir ∧ (fs.kind (Join d "brightness")).isSome ∧
    (fs.kind (Join d "max_brightness")).isSome

/-- The control directories below a base directory, in enumeration order. -/
def controlsIn (fs : FileSystem) (basedir : String) : List String :=
  match fs.entries basedir with
  | none => []
  | some entries => (entries.map (Join basedir)).filter (isControl fs)

/-! ## Driver -/

/-- The adjustment branch of `main` (backlight.go, lines 310-320), given the values that
`BLReadMax` and `BLReadCurrent` return for the selected control: the value handed to
`BLWriteCurrent`, or `none` when no adjustment was requested. -/
def mainAdjust (options : Options) (selected_dir : String) (bl_max bl_cur : Nat) :
    Outcome (Option Nat) :=
  match options.val with
  | none => .ret none
  | some val =>
    if selected_dir = "" then .panic .invalidState
    else
      match CalcBacklight bl_max options.min bl_cur val options.rel options.perc with
      | .ret bl_new => .ret (some bl_new)
      | .exit c m => .exit c m
      | .panic w => .panic w

/-! ## Sample data -/

/-- A `ParseFloat` on the three literals of the end-to-end scenario. -/
def sampleParseFloat (str : String) : Option ℚ :=
  if str = "5" then some 5
  else if str = "-20" then some (-20)
  else if str = "+60" then some 60
  else none

/-- Command line `-i -1`. -/
def argsIndexMinusOne : Args :=
  { h := false, l := false, i := some (-1), n := none, s := none, m := none }

/-- Command line `-i 0 -s 5 -m 200`. -/
def argsMinAboveMax : Args :=
  { h := false, l := false, i := some 0, n := none, s := some "5", m := some 200 }

/-- Command line `-i 0 -l`. -/
def argsIndexZero : Args :=
  { h := false, l := true, i := some 0, n := none, s := none, m := none }

/-- Command line `-i -2 -s 5`. -/
def argsIndexNegative : Args :=
  { h := false, l := false, i := some (-2), n := none, s := some "5", m := none }

/-- Command line `-s -20`. -/
def argsNoControl : Args :=
  { h := false, l := false, i := none, n := none, s := some "-20", m := none }

/-- Command line `-i 1 -n ctrl1`. -/
def argsNameAndIndex : Args :=
  { h := false, l := false, i := some 1, n := some "ctrl1", s := none, m := none }

/-- Options that select by index only. -/
def optionsById (id : Int) : Options :=
  { help := false, list := false, id := id, name := "", val := none, min := 0,
    perc := false, rel := false }

/-- Options that select by name only. -/
def optionsByName (name : String) : Options :=
  { help := false, list := false, id := -1, name := name, val := none, min := 0,
    perc := false, rel := false }

/-- A file system with two base directories.  The first has three subdirectories, of which
`broken` has no `max_brightness`, and a plain file; the second has one control. -/
def sampleFS : FileSystem where
  kind := fun p =>
    if p ∈ ["/sys/class/backlight", "/sys/class/backlight/acpi_video0",
        "/sys/class/backlight/broken", "/sys/class/backlight/intel_backlight",
        "/sys/class/leds", "/sys/class/leds/capslock"] then some .dir
    else if p ∈ ["/sys/class/backlight/acpi_video0/brightness",
        "/sys/class/backlight/acpi_video0/max_brightness",
        "/sys/class/backlight/broken/brightness",
        "/sys/class/backlight/intel_backlight/brightness",
        "/sys/class/backlight/intel_backlight/max_brightness",
        "/sys/class/backlight/notes",
        "/sys/class/leds/capslock/brightness",
        "/sys/class/leds/capslock/max_brightness"] then some .file
    else none
  entries := fun p =>
    if p = "/sys/class/backlight" then
      some ["acpi_video0", "broken", "intel_backlight", "notes"]
    else if p = "/sys/class/leds" then
      some ["capslock"]
    else none

/-! ## Lemmas about the calculator -/

theorem truncate_of_nonneg {f : ℚ} (h : 0 ≤ f) : truncate f = ⌊f⌋ := by
  simp [truncate, h]

theorem uintOfFloat_lt_iff {f : ℚ} (h : 0 ≤ f) (n : Nat) :
    uintOfFloat f < n ↔ f < (n : ℚ) := by
  unfold uintOfFloat
  rw [truncate_of_nonneg h]
  have h0 : 0 ≤ ⌊f⌋ := Int.floor_nonneg.mpr h
  constructor
  · intro hlt
    have : ⌊f⌋ < (n : ℤ) := by omega
    have := Int.floor_lt.mp this
    simpa using this
  · intro hlt
    have : ⌊f⌋ < (n : ℤ) := Int.floor_lt.mpr (by simpa using hlt)
    omega

theorem Round_of_nonneg {f : ℚ} (h : 0 ≤ f) : Round f = ⌊f + 1/2⌋ := by
  rw [Round]
  have h1 : ¬ f < 0 := not_lt.mpr h
  rw [if_neg h1]
  exact truncate_of_nonneg (by linarith)

theorem Round_of_neg {f : ℚ} (h : f < 0) : Round f = - Round (-f) := by
  rw [Round]
  rw [if_pos h]

theorem Round_eq_roundHalfAway (f : ℚ) : Round f = roundHalfAway f := by
  unfold roundHalfAway
  by_cases h : 0 ≤ f
  · rw [if_pos h, Round_of_nonneg h]
  · rw [if_neg h]
    have hlt : f < 0 := not_le.mp h
    rw [Round_of_neg hlt, Round_of_nonneg (by linarith)]
    symm
    rw [Int.ceil_eq_iff]
    have h1 := Int.floor_le (-f + 1/2)
    have h2 := Int.lt_floor_add_one (-f + 1/2)
    push_cast
    constructor <;> linarith

theorem CalcBacklight_eq_specCalc (bl_max bl_min bl_cur : Nat) (val : ℚ) (is_rel is_perc : Bool) :
    CalcBacklight bl_max bl_min bl_cur val is_rel is_perc
      = .ret (specCalc bl_max bl_min bl_cur val is_rel is_perc) := by
  have key : ∀ bl : ℚ,
      (if bl < 0 ∨ uintOfFloat bl < bl_min then (Outcome.ret bl_min : Outcome Nat)
        else if bl > (bl_max : ℚ) then .ret bl_max
        else .ret (uintOfInt (Round bl)))
      = .ret (if bl < 0 ∨ bl < (bl_min : ℚ) then bl_min
          else if bl > (bl_max : ℚ) then bl_max
          else (roundHalfAway bl).toNat) := by
    intro bl
    by_cases h0 : bl < 0
    · simp [h0]
    · have hnn : 0 ≤ bl := not_lt.mp h0
      have hu := uintOfFloat_lt_iff hnn bl_min
      simp only [hu, Round_eq_roundHalfAway, uintOfInt]
      split_ifs <;> rfl
  cases is_rel <;> cases is_perc <;>
    simp only [CalcBacklight, specCalc, specClamp, specValue, Bool.and_self, Bool.and_true,
      Bool.and_false, Bool.not_true, Bool.not_false, Bool.false_eq_true, if_false, if_true, Bool.true_and,
      Bool.false_and] <;>
    exact key _

/-- The reference rounding is a nearest integer, and at a tie it is the one farther from
zero. -/
theorem roundHalfAway_nearest (v : ℚ) :
    |((roundHalfAway v : ℤ) : ℚ) - v| ≤ 1/2 ∧
      (|((roundHalfAway v : ℤ) : ℚ) - v| = 1/2 →
        |v| < |((roundHalfAway v : ℤ) : ℚ)|) := by
  unfold roundHalfAway
  by_cases h : 0 ≤ v
  · rw [if_pos h]
    have h1 := Int.floor_le (v + 1/2)
    have h2 := Int.lt_floor_add_one (v + 1/2)
    constructor
    · rw [abs_le]; constructor <;> linarith
    · intro he
      have hr : v < ((⌊v + 1/2⌋ : ℤ) : ℚ) := by
        rcases abs_eq (by norm_num : (0:ℚ) ≤ 1/2) |>.mp he with h3 | h3 <;> linarith
      rw [abs_of_nonneg h, abs_of_nonneg (by linarith)]
      exact hr
  · rw [if_neg h]
    have hlt : v < 0 := not_le.mp h
    have h1 := Int.le_ceil (v - 1/2)
    have h2 := Int.ceil_lt_add_one (v - 1/2)
    constructor
    · rw [abs_le]; constructor <;> linarith
    · intro he
      have hr : ((⌈v - 1/2⌉ : ℤ) : ℚ) < v := by
        rcases abs_eq (by norm_num : (0:ℚ) ≤ 1/2) |>.mp he with h3 | h3 <;> linarith
      rw [abs_of_neg hlt, abs_of_neg (by linarith)]
      linarith

theorem sliceIndex_of_lt (a : List String) (i : Int) (h0 : 0 ≤ i) (h : i < (a.length : Int)) :
    ∃ d, a[i.toNat]? = some d ∧ sliceIndex a i = .ret d := by
  have hlt : i.toNat < a.length := by omega
  refine ⟨a[i.toNat], List.getElem?_eq_getElem hlt, ?_⟩
  simp [sliceIndex, h0, List.getElem?_eq_getElem hlt]

theorem selectByName_ret_iff (name : String) (all_dirs : List String) (d : String) :
    selectByName name all_dirs = .ret d ↔
      ∃ pre post, all_dirs = pre ++ d :: post ∧ Base d = name ∧
        ∀ x ∈ pre, Base x ≠ name := by
  induction all_dirs with
  | nil => simp [selectByName]
  | cons e es ih =>
    by_cases he : Base e = name
    · simp only [selectByName, if_pos he, Outcome.ret.injEq]
      constructor
      · intro hd
        subst hd
        exact ⟨[], es, rfl, he, by simp⟩
      · rintro ⟨pre, post, hsplit, _, hpre⟩
        cases pre with
        | nil =>
          simp only [List.nil_append, List.cons.injEq] at hsplit
          exact hsplit.1
        | cons p ps =>
          simp only [List.cons_append, List.cons.injEq] at hsplit
          exact absurd (hsplit.1 ▸ he) (hpre p (by simp))
    · simp only [selectByName, if_neg he]
      rw [ih]
      constructor
      · rintro ⟨pre, post, hsplit, hb, hpre⟩
        refine ⟨e :: pre, post, by simp [hsplit], hb, ?_⟩
        intro x hx
        rcases List.mem_cons.mp hx with rfl | hx
        · exact he
        · exact hpre x hx
      · rintro ⟨pre, post, hsplit, hb, hpre⟩
        cases pre with
        | nil =>
          simp only [List.nil_append, List.cons.injEq] at hsplit
          exact absurd (hsplit.1 ▸ hb) he
        | cons p ps =>
          simp only [List.cons_append, List.cons.injEq] at hsplit
          exact ⟨ps, post, hsplit.2, hb, fun x hx => hpre x (by simp [hx])⟩

theorem selectByName_exit_iff (name : String) (all_dirs : List String) :
    selectByName name all_dirs = .exit 2 (.nameNotFound name) ↔
      ∀ d ∈ all_dirs, Base d ≠ name := by
  induction all_dirs with
  | nil => simp [selectByName]
  | cons e es ih =>
    by_cases he : Base e = name
    · simp [selectByName, he]
    · simp [selectByName, he, ih]

theorem selectByName_total (name : String) (all_dirs : List String) :
    (∃ d, selectByName name all_dirs = .ret d) ∨
      selectByName name all_dirs = .exit 2 (.nameNotFound name) := by
  induction all_dirs with
  | nil => simp [selectByName]
  | cons e es ih =>
    by_cases he : Base e = name
    · simp [selectByName, he]
    · simpa [selectByName, he] using ih

theorem length_pos_iff_ne_empty (s : String) : s.length > 0 ↔ s ≠ "" := by
  rcases s with ⟨cs⟩
  cases cs with
  | nil => simp [String.length]
  | cons c cs =>
    simp [String.length]
    intro h
    have := congrArg String.data h
    simp at this

/-! ## Lemmas about option validation -/


theorem ParseOptions_outcome (ParseFloat : String → Option ℚ) (args : Args)
    (hh : args.h = false)
    (hs : (args.s.getD "").length > 0 →
      ∃ v, ParseFloat (TrimSuffixPercent (args.s.getD "")) = some v) :
    ∃ o : Options, o.id = args.i.getD (-1) ∧ o.name = args.n.getD "" ∧
      ParseOptions ParseFloat args =
        if args.i.getD (-1) ≠ -1 ∧ args.i.getD (-1) < 0 then .exit 1 .illegalId
        else if (args.s.getD "").length > 0 ∧
            ¬ (args.i.getD (-1) ≠ -1 ∨ (args.n.getD "").length > 0) then
          .exit 1 .notSpecified
        else if args.i.getD (-1) ≠ -1 ∧ (args.n.getD "").length > 0 then .exit 1 .nameAndId
        else .ret o := by
  by_cases hv : (args.s.getD "").length > 0
  · obtain ⟨v, hp⟩ := hs hv
    have hv0 : ¬ (args.s.getD "").length = 0 := by omega
    by_cases hm : args.m.getD 0 > 0
    · simp only [ParseOptions, hh, hv, hp, hm, hv0, if_true, if_false, Bool.false_eq_true]
      refine ⟨_, ?_, ?_, rfl⟩ <;> rfl
    · simp only [ParseOptions, hh, hv, hp, hm, hv0, if_true, if_false, Bool.false_eq_true]
      refine ⟨_, ?_, ?_, rfl⟩ <;> rfl
  · have hv0 : (args.s.getD "").length = 0 := by omega
    by_cases hm : args.m.getD 0 > 0
    · simp only [ParseOptions, hh, hv, hm, hv0, if_true, if_false, Bool.false_eq_true]
      refine ⟨_, ?_, ?_, rfl⟩ <;> rfl
    · simp only [ParseOptions, hh, hv, hm, hv0, if_true, if_false, Bool.false_eq_true]
      refine ⟨_, ?_, ?_, rfl⟩ <;> rfl

theorem getD_index_ne_iff (args : Args) : args.i.getD (-1) ≠ -1 ↔ args.indexSet := by
  unfold Args.indexSet
  cases args.i <;> simp

theorem getD_name_length_iff (args : Args) : (args.n.getD "").length > 0 ↔ args.nameSet := by
  unfold Args.nameSet
  rw [length_pos_iff_ne_empty]
  cases args.n <;> simp

theorem getD_val_length_iff (args : Args) : (args.s.getD "").length > 0 ↔ args.adjustment := by
  unfold Args.adjustment
  rw [length_pos_iff_ne_empty]
  cases args.s <;> simp

theorem getD_index_neg_iff (args : Args) :
    (args.i.getD (-1) ≠ -1 ∧ args.i.getD (-1) < 0) ↔ args.indexIllegal := by
  unfold Args.indexIllegal
  cases args.i with
  | none => simp
  | some v => simp [and_comm]

/-- Every options record that `ParseOptions` returns has the unset marker `-1` or a
non-negative index: a negative set index ends the process in `ParseOptions`. -/
theorem ParseOptions_id_unset_or_nonneg (ParseFloat : String → Option ℚ) (args : Args)
    (options : Options) (h : ParseOptions ParseFloat args = .ret options) :
    options.id = -1 ∨ 0 ≤ options.id := by
  by_cases hv : (args.s.getD "").length > 0
  · cases hp : ParseFloat (TrimSuffixPercent (args.s.getD "")) with
    | none =>
      simp [ParseOptions, hv, hp] at h
    | some v =>
      cases hh : args.h with
      | true => simp [ParseOptions, hv, hp, hh] at h
      | false =>
        obtain ⟨o, hid, _, ho⟩ := ParseOptions_outcome ParseFloat args hh (fun _ => ⟨v, hp⟩)
        rw [ho] at h
        split_ifs at h with h1 h2 h3
        cases h
        rw [hid]
        omega
  · cases hh : args.h with
    | true => simp [ParseOptions, hv, hh] at h
    | false =>
      obtain ⟨o, hid, _, ho⟩ := ParseOptions_outcome ParseFloat args hh
        (fun hv2 => absurd hv2 hv)
      rw [ho] at h
      split_ifs at h with h1 h2 h3
      cases h
      rw [hid]
      omega

/-! ## Claims about the selector -/

/-- C5, as stated, fails: with the discovered list `[ctrl0, ctrl1]` and the set index `-2`
(negative, not the unset marker `-1`), `SelectDirs` does not print "control not found" and
call `os.Exit(2)`: the test `id < len(all_dirs)` holds and the index expression
`all_dirs[id]` faults with the run-time panic "index out of range". -/
theorem SelectDirs_negative_index_counterexample :
    (-2 : Int) ≠ -1 ∧ ¬ (0 ≤ (-2 : Int) ∧ (-2 : Int) < 2) ∧
      SelectDirs ["ctrl0", "ctrl1"] (optionsById (-2)) = .panic .indexOutOfRange ∧
      SelectDirs ["ctrl0", "ctrl1"] (optionsById (-2)) ≠ .exit 2 (.idNotFound (-2)) ∧
      ¬ ∃ msg, SelectDirs ["ctrl0", "ctrl1"] (optionsById (-2)) = .exit 2 msg := by
  have h : SelectDirs ["ctrl0", "ctrl1"] (optionsById (-2)) = .panic .indexOutOfRange := by
    decide
  refine ⟨by decide, by decide, h, ?_, ?_⟩
  · rw [h]
    intro hm
    cases hm
  · rintro ⟨msg, hm⟩
    rw [h] at hm
    cases hm

/-- C5, amended. Selection by index: for every discovered list and every index `i ≥ 0`,
`SelectDirs` returns the element at 0-based position `i` when `i` is less than the length of
the list, and otherwise ends with the "control not found" error, exit code 2.  A negative
index other than `-1` does not reach `SelectDirs`: every options record that `ParseOptions`
returns has the index `-1` or a non-negative index. -/
theorem SelectDirs_by_index :
    (∀ (all_dirs : List String) (options : Options), 0 ≤ options.id →
      (options.id < (all_dirs.length : Int) →
          ∃ d, all_dirs[options.id.toNat]? = some d ∧ SelectDirs all_dirs options = .ret d) ∧
        ((all_dirs.length : Int) ≤ options.id →
          SelectDirs all_dirs options = .exit 2 (.idNotFound options.id))) ∧
      (∀ (ParseFloat : String → Option ℚ) (args : Args) (options : Options),
        ParseOptions ParseFloat args = .ret options → options.id = -1 ∨ 0 ≤ options.id) := by
  refine ⟨?_, ParseOptions_id_unset_or_nonneg⟩
  intro all_dirs options h
  have hne : options.id ≠ -1 := by omega
  constructor
  · intro hlt
    obtain ⟨d, hd, hs⟩ := sliceIndex_of_lt all_dirs options.id h hlt
    exact ⟨d, hd, by simp [SelectDirs, hne, hlt, hs]⟩
  · intro hge
    have hnlt : ¬ options.id < (all_dirs.length : Int) := not_lt.mpr hge
    simp [SelectDirs, hne, hnlt]

theorem SelectDirs_by_index_witness :
    SelectDirs ["ctrl0", "ctrl1"] (optionsById 1) = .ret "ctrl1" ∧
      SelectDirs ["ctrl0", "ctrl1"] (optionsById 5) = .exit 2 (.idNotFound 5) ∧
      (∃ options, ParseOptions sampleParseFloat argsIndexZero = .ret options ∧
        (options.id = -1 ∨ 0 ≤ options.id)) := by
  have h1 :=
    (SelectDirs_by_index.1 ["ctrl0", "ctrl1"] (optionsById 1) (by decide)).1 (by decide)
  have h5 :=
    (SelectDirs_by_index.1 ["ctrl0", "ctrl1"] (optionsById 5) (by decide)).2 (by decide)
  have hp : ParseOptions sampleParseFloat argsIndexZero
      = .ret { help := false, list := true, id := 0, name := "", val := none, min := 0,
               perc := false, rel := false } := by
    decide
  have h0 := SelectDirs_by_index.2 sampleParseFloat argsIndexZero _ hp
  refine ⟨?_, h5, _, hp, h0⟩
  obtain ⟨d, hd, hs⟩ := h1
  have hd1 : d = "ctrl1" := by
    have : (["ctrl0", "ctrl1"] : List String)[(optionsById 1).id.toNat]? = some "ctrl1" := by
      decide
    rw [this] at hd
    exact (Option.some.inj hd).symm
  rw [hs, hd1]

/-- C6. Selection by name: for every discovered list and every non-empty name, with no
index set, `SelectDirs` returns the first path in list order whose final path component
equals the name, and ends with the not-found error (exit code 2) exactly when no path of the
list has that final component; with neither index nor name it returns the empty string. -/
theorem SelectDirs_by_name (all_dirs : List String) (options : Options)
    (hid : options.id = -1) :
    (options.name ≠ "" →
      (∀ d, SelectDirs all_dirs options = .ret d ↔
          ∃ pre post, all_dirs = pre ++ d :: post ∧ Base d = options.name ∧
            ∀ x ∈ pre, Base x ≠ options.name) ∧
        (SelectDirs all_dirs options = .exit 2 (.nameNotFound options.name) ↔
          ∀ d ∈ all_dirs, Base d ≠ options.name) ∧
        ((∃ d, SelectDirs all_dirs options = .ret d) ∨
          SelectDirs all_dirs options = .exit 2 (.nameNotFound options.name))) ∧
      (options.name = "" → SelectDirs all_dirs options = .ret "") := by
  constructor
  · intro hname
    have hlen : options.name.length > 0 := (length_pos_iff_ne_empty _).mpr hname
    have hsel : SelectDirs all_dirs options = selectByName options.name all_dirs := by
      simp [SelectDirs, hid, hlen]
    rw [hsel]
    exact ⟨fun d => selectByName_ret_iff _ _ d, selectByName_exit_iff _ _,
      selectByName_total _ _⟩
  · intro hname
    simp [SelectDirs, hid, hname]

theorem SelectDirs_by_name_witness :
    SelectDirs ["ctrl0", "ctrl1"] (optionsByName "ctrl1") = .ret "ctrl1" ∧
      SelectDirs ["ctrl0", "ctrl1"] (optionsByName "missing")
        = .exit 2 (.nameNotFound "missing") ∧
      SelectDirs ["ctrl0", "ctrl1"] (optionsByName "") = .ret "" := by
  have h1 := (SelectDirs_by_name ["ctrl0", "ctrl1"] (optionsByName "ctrl1") rfl).1 (by decide)
  have h2 := (SelectDirs_by_name ["ctrl0", "ctrl1"] (optionsByName "missing") rfl).1
    (by decide)
  have h3 := (SelectDirs_by_name ["ctrl0", "ctrl1"] (optionsByName "") rfl).2 rfl
  refine ⟨?_, ?_, h3⟩
  · exact (h1.1 "ctrl1").mpr ⟨["ctrl0"], [], rfl, by decide, by decide⟩
  · exact h2.2.1.mpr (by decide)

/-! ## Lemmas about discovery -/

theorem scanLoop_eq_filter (os : OS) (basedir : String) (entries dirs : List String) :
    scanLoop os basedir entries dirs
      = dirs ++ (entries.map (Join basedir)).filter
          (fun d => FileIsDir os d && hasFiles os d ["brightness", "max_brightness"]) := by
  induction entries generalizing dirs with
  | nil => simp [scanLoop]
  | cons e es ih =>
    simp only [scanLoop, List.map_cons, List.filter_cons]
    by_cases h1 : FileIsDir os (Join basedir e) = true
    · by_cases h2 : hasFiles os (Join basedir e) ["brightness", "max_brightness"] = true
      · simp [h1, h2, ih]
      · simp [h1, h2, ih]
    · simp [h1, ih]

theorem FileExists_toOS (fs : FileSystem) (p : String) :
    FileExists fs.toOS p = (fs.kind p).isSome := by
  cases h : fs.kind p with
  | none => simp [FileExists, FileSystem.toOS, h]
  | some k => cases k <;> simp [FileExists, FileSystem.toOS, h]

theorem FileIsDir_toOS (fs : FileSystem) (p : String) :
    FileIsDir fs.toOS p = decide (fs.kind p = some .dir) := by
  cases h : fs.kind p with
  | none => simp [FileIsDir, FileSystem.toOS, h]
  | some k => cases k <;> simp [FileIsDir, FileSystem.toOS, h]

theorem scan_test_eq_isControl (fs : FileSystem) (d : String) :
    (FileIsDir fs.toOS d && hasFiles fs.toOS d ["brightness", "max_brightness"])
      = isControl fs d := by
  simp only [hasFiles, FileExists_toOS, FileIsDir_toOS, isControl]
  by_cases h1 : fs.kind d = some .dir <;>
    cases h2 : (fs.kind (Join d "brightness")).isSome <;>
    cases h3 : (fs.kind (Join d "max_brightness")).isSome <;>
    simp [h1, h2, h3]

theorem ScanDir_eq_controlsIn (fs : FileSystem) (basedir : String)
    (h : (fs.entries basedir).isSome) :
    ScanDir fs.toOS basedir = .ret (controlsIn fs basedir) := by
  obtain ⟨entries, he⟩ := Option.isSome_iff_exists.mp h
  have hr : fs.toOS.ReadDir basedir = some entries := he
  simp only [ScanDir, hr, controlsIn, he, scanLoop_eq_filter, List.nil_append]
  congr 2
  funext d
  exact scan_test_eq_isControl fs d

theorem scanDirsLoop_eq (fs : FileSystem) (dirs result : List String)
    (h : ∀ b ∈ dirs, (fs.entries b).isSome) :
    scanDirsLoop fs.toOS dirs result = .ret (result ++ dirs.flatMap (controlsIn fs)) := by
  induction dirs generalizing result with
  | nil => simp [scanDirsLoop]
  | cons d ds ih =>
    have hd := ScanDir_eq_controlsIn fs d (h d (by simp))
    simp only [scanDirsLoop, hd]
    rw [ih _ (fun b hb => h b (by simp [hb]))]
    simp

/-! ## Claim about discovery -/

/-- C7. Discovery over an explicit file system: for every sequence of listable base
directories, `ScanDirs` returns the concatenation, in the order the base directories were
given, of `ScanDir` of each; and `ScanDir` of a base directory returns exactly the joined
paths of those entries, in enumeration order, that are directories containing both an entry
named `brightness` and an entry named `max_brightness`. -/
theorem ScanDirs_discovery (fs : FileSystem) (dirs : List String)
    (h : ∀ b ∈ dirs, (fs.entries b).isSome) :
    ScanDirs fs.toOS dirs = .ret (dirs.flatMap (controlsIn fs)) ∧
      ∀ b ∈ dirs, ∃ entries, fs.entries b = some entries ∧
        controlsIn fs b = (entries.map (Join b)).filter (isControl fs) ∧
        ScanDir fs.toOS b = .ret (controlsIn fs b) := by
  constructor
  · simpa [ScanDirs] using scanDirsLoop_eq fs dirs [] h
  · intro b hb
    obtain ⟨entries, he⟩ := Option.isSome_iff_exists.mp (h b hb)
    exact ⟨entries, he, by simp [controlsIn, he], ScanDir_eq_controlsIn fs b (h b hb)⟩

theorem ScanDirs_discovery_witness :
    ScanDir sampleFS.toOS "/sys/class/backlight"
        = .ret ["/sys/class/backlight/acpi_video0", "/sys/class/backlight/intel_backlight"] ∧
      ScanDirs sampleFS.toOS ["/sys/class/backlight", "/sys/class/leds"]
        = .ret ["/sys/class/backlight/acpi_video0", "/sys/class/backlight/intel_backlight",
                "/sys/class/leds/capslock"] := by
  have h := ScanDirs_discovery sampleFS ["/sys/class/backlight", "/sys/class/leds"]
    (by decide)
  obtain ⟨entries, _, _, hdir⟩ := h.2 "/sys/class/backlight" (by decide)
  constructor
  · rw [hdir]
    decide
  · rw [h.1]
    decide

/-! ## Claims about option validation -/

/-- C8, as stated, fails: on the command line `-i -1` the `-i` value is negative, yet
`ParseOptions` does not end the process with exit code 1; it returns the options, with
listing switched on. -/
theorem ParseOptions_index_minus_one_counterexample :
    argsIndexMinusOne.h = false ∧
      (∃ v, argsIndexMinusOne.i = some v ∧ v < 0) ∧
      ParseOptions sampleParseFloat argsIndexMinusOne
        = .ret { help := false, list := true, id := -1, name := "", val := none, min := 0,
                 perc := false, rel := false } ∧
      ¬ ((∃ msg, ParseOptions sampleParseFloat argsIndexMinusOne = .exit 1 msg) ↔
          ((argsIndexMinusOne.i.isSome ∧ argsIndexMinusOne.n.isSome) ∨
            (argsIndexMinusOne.s.isSome ∧ ¬ argsIndexMinusOne.i.isSome ∧
              ¬ argsIndexMinusOne.n.isSome) ∨
            (∃ v, argsIndexMinusOne.i = some v ∧ v < 0))) := by
  have hneg : ∃ v, argsIndexMinusOne.i = some v ∧ v < 0 := ⟨-1, rfl, by decide⟩
  have hret : ParseOptions sampleParseFloat argsIndexMinusOne
      = .ret { help := false, list := true, id := -1, name := "", val := none, min := 0,
               perc := false, rel := false } := by
    decide
  refine ⟨rfl, hneg, hret, ?_⟩
  intro hiff
  obtain ⟨msg, hm⟩ := hiff.mpr (Or.inr (Or.inr hneg))
  rw [hret] at hm
  cases hm

/-- C8, amended. Option validation exit code: for every combination of flags without `-h`
and with a parseable `-s`, `ParseOptions` ends the process with exit code 1 if and only if
both an index and a name are set, or an adjustment is requested with neither set, or the
`-i` value is negative and not `-1`; in every other case it returns the options.  Here an
index is set when `-i` has a value other than `-1`, and a name is set, an adjustment
requested, when `-n`, `-s` has a non-empty value. -/
theorem ParseOptions_exit_code (ParseFloat : String → Option ℚ) (args : Args)
    (hh : args.h = false) (hs : args.parseable ParseFloat) :
    ((∃ msg, ParseOptions ParseFloat args = .exit 1 msg) ↔
        ((args.indexSet ∧ args.nameSet) ∨
          (args.adjustment ∧ ¬ args.indexSet ∧ ¬ args.nameSet) ∨
          args.indexIllegal)) ∧
      ((∃ msg, ParseOptions ParseFloat args = .exit 1 msg) ∨
        (∃ options, ParseOptions ParseFloat args = .ret options)) := by
  have hs2 : (args.s.getD "").length > 0 →
      ∃ v, ParseFloat (TrimSuffixPercent (args.s.getD "")) = some v := by
    intro hv
    obtain ⟨str, hstr, hne⟩ := (getD_val_length_iff args).mp hv
    have hstr2 : args.s = some str := hstr
    have : args.s.getD "" = str := by simp [hstr2]
    rw [this]
    exact Option.isSome_iff_exists.mp (hs str hstr hne)
  obtain ⟨o, _, _, ho⟩ := ParseOptions_outcome ParseFloat args hh hs2
  rw [ho]
  split_ifs with h1 h2 h3 <;>
    rw [getD_index_neg_iff] at h1 <;>
    try simp only [getD_index_ne_iff, getD_name_length_iff, getD_val_length_iff] at h2 <;>
    try simp only [getD_index_ne_iff, getD_name_length_iff] at h3
  · exact ⟨⟨fun _ => Or.inr (Or.inr h1), fun _ => ⟨_, rfl⟩⟩, Or.inl ⟨_, rfl⟩⟩
  · refine ⟨⟨fun _ => Or.inr (Or.inl ⟨h2.1, ?_, ?_⟩), fun _ => ⟨_, rfl⟩⟩,
      Or.inl ⟨_, rfl⟩⟩
    · exact fun hi => h2.2 (Or.inl hi)
    · exact fun hn => h2.2 (Or.inr hn)
  · exact ⟨⟨fun _ => Or.inl h3, fun _ => ⟨_, rfl⟩⟩, Or.inl ⟨_, rfl⟩⟩
  · refine ⟨⟨?_, ?_⟩, Or.inr ⟨_, rfl⟩⟩
    · rintro ⟨msg, hm⟩
      cases hm
    · rintro (hb | ha | hn)
      · exact absurd hb h3
      · exact absurd ⟨ha.1, fun hor => hor.elim ha.2.1 ha.2.2⟩ h2
      · exact absurd hn h1

theorem ParseOptions_exit_code_witness :
    (∃ msg, ParseOptions sampleParseFloat argsNameAndIndex = .exit 1 msg) ∧
      (∃ msg, ParseOptions sampleParseFloat argsIndexNegative = .exit 1 msg) ∧
      (∃ msg, ParseOptions sampleParseFloat argsNoControl = .exit 1 msg) ∧
      (∃ options, ParseOptions sampleParseFloat argsMinAboveMax = .ret options) := by
  have h1 := ParseOptions_exit_code sampleParseFloat argsNameAndIndex rfl (by decide)
  have h2 := ParseOptions_exit_code sampleParseFloat argsIndexNegative rfl (by decide)
  have h3 := ParseOptions_exit_code sampleParseFloat argsNoControl rfl (by decide)
  have h4 := ParseOptions_exit_code sampleParseFloat argsMinAboveMax rfl (by decide)
  refine ⟨h1.1.mpr (by decide), h2.1.mpr (by decide), h3.1.mpr (by decide), ?_⟩
  rcases h4.2 with hex | hret
  · exact absurd (h4.1.mp hex) (by decide)
  · exact hret

/-! ## Claim about the driver -/

/-- C10. The minimum floor is never checked against the maximum: there is an input with
`min > max` for which `CalcBacklight` returns a value greater than `max`.  With `max = 100`,
`min = 200`, `current = 50` and the absolute value `5` it returns `200`; `ParseOptions`
accepts the command line `-i 0 -s 5 -m 200` and returns the floor `200` unchanged, and the
adjustment branch of `main` hands `200` to `BLWriteCurrent`. -/
theorem CalcBacklight_min_above_max :
    (∃ bl_max bl_min bl_cur : Nat, ∃ val : ℚ, ∃ is_rel is_perc : Bool, ∃ r : Nat,
        bl_max < bl_min ∧
        CalcBacklight bl_max bl_min bl_cur val is_rel is_perc = .ret r ∧ bl_max < r) ∧
      CalcBacklight 100 200 50 5 false false = .ret 200 ∧
      (∃ options, ParseOptions sampleParseFloat argsMinAboveMax = .ret options ∧
        options.min = 200 ∧ options.val = some 5 ∧ options.rel = false ∧
        options.perc = false ∧ options.list = false ∧
        mainAdjust options "/sys/class/backlight/ctrl0" 100 50 = .ret (some 200)) := by
  have hc : CalcBacklight 100 200 50 5 false false = .ret 200 := by
    rw [CalcBacklight_eq_specCalc]
    norm_num [specCalc, specClamp, specValue]
  refine ⟨⟨100, 200, 50, 5, false, false, 200, by decide, hc, by decide⟩, hc, ?_⟩
  refine ⟨{ help := false, list := false, id := 0, name := "", val := some 5, min := 200,
            perc := false, rel := false }, by decide, rfl, rfl, rfl, rfl, rfl, ?_⟩
  simp only [mainAdjust, hc]
  decide

end Backlight
